import Mathlib

/-!
Shallow embedding of the oneship workflow orchestration engine.

Sources embedded here:
* `packages/workflow/src/workflow-definition.ts` — `WorkflowStepDefinition`,
  `WorkflowDefinition`.
* `packages/workflow/src/step-executor.ts` — `StepExecutionContext`,
  `IStepExecutor`, `CheckFreeShippingStepExecutor`, `WebhookStepExecutor`.
* `packages/workflow/src/workflow-engine.ts` — `WorkflowEngine.execute`,
  `executeWorkflowAsync`, `executeStep`.
* `packages/core/src/interfaces.ts` — `WorkflowStepStatus`,
  `WorkflowExecution`, `WorkflowStep`, `IProvider`.

Modelling decisions:
* JavaScript dynamic values (`any` / `Record<string, any>`) are modelled by the
  inductive `Val`; an object / the execution context is a key-value list in
  insertion order, as JS objects enumerate their own string keys.
* `new Date()` timestamps are modelled by a logical clock: a `Nat` counter that
  is incremented at every `new Date()` call, so "the timestamp is set" and the
  order of stamps are observable, the wall-clock value is not.
* `await`-suspension (retry backoff waits) and executor invocations are
  recorded in an event trace rather than real time.
* A step executor is a function of the step definition, the context, the
  provider table and the invocation index (the index models the state of the
  external world across repeated invocations of impure executors).
* The execution context is a single JS object allocated once per run
  (`const context = { ...initialContext }`, engine line 87) and mutated in
  place (`Object.assign(context, step.output)`, engine line 108).  The
  `input: context` field of a `WorkflowStep` (engine line 141) therefore holds
  a reference to that one object, not a copy; we model the one-object heap
  with the marker type `ContextRef`, dereferenced against the context's
  current value.
-/

namespace Oneship

/-- A JavaScript runtime value, as far as the engine and the step executors
inspect values: `null`/`undefined` collapse where only truthiness and
property access matter, objects are ordered key-value lists. -/
inductive Val where
  | null : Val
  | bool : Bool → Val
  | num : Int → Val
  | str : String → Val
  | obj : List (String × Val) → Val

/-- A JS object used as a string-keyed record: the `StepExecutionContext`,
a step `output`, a step `config`. -/
abbrev Ctx := List (String × Val)

/-- JavaScript truthiness of a value. -/
def truthy : Val → Bool
  | .null => false
  | .bool b => b
  | .num n => n != 0
  | .str s => s != ""
  | .obj _ => true

/-- Truthiness where `none` stands for `undefined`. -/
def truthyOpt : Option Val → Bool
  | none => false
  | some v => truthy v

/-- Property read `o[k]` on a JS object: the first entry with the key. -/
def lookupCtx (ctx : Ctx) (k : String) : Option Val :=
  (ctx.find? (fun p => p.1 == k)).map (fun p => p.2)

/-- Property write `o[k] = v` on a JS object: an existing key is updated in
place, a new key is appended (JS own-key insertion order). -/
def setKey (ctx : Ctx) (k : String) (v : Val) : Ctx :=
  if ctx.any (fun p => p.1 == k) then
    ctx.map (fun p => if p.1 == k then (k, v) else p)
  else
    ctx ++ [(k, v)]

/-- `Object.assign(ctx, out)` (engine line 108): every own key of `out` is
written into `ctx` in order, overwriting existing bindings. -/
def assignCtx (ctx : Ctx) (out : Ctx) : Ctx :=
  out.foldl (fun c kv => setKey c kv.1 kv.2) ctx

/-- The value `Object.assign` leaves under `k`: the last occurrence of `k`
in the source object wins. -/
def lastVal (out : Ctx) (k : String) : Option Val :=
  (out.reverse.find? (fun p => p.1 == k)).map (fun p => p.2)

/-- Property access `v?.k`: yields the property on objects, `undefined` on
`null`/`undefined` and on primitives (none of which carry these keys). -/
def getProp (v : Val) (k : String) : Option Val :=
  match v with
  | .obj fields => lookupCtx fields k
  | _ => none

/-- JS `a || b` on an optional value (`undefined` and falsy values fall
through to `b`). -/
def jsOrVal (a b : Option Val) : Option Val :=
  if truthyOpt a then a else b

/-- JS `a || b` where `a` is an optionally-present number (`x?.f || d`):
`undefined` and `0` fall through to the default. -/
def jsOrInt (a : Option Int) (b : Int) : Int :=
  match a with
  | none => b
  | some n => if n = 0 then b else n

/-- JS string rendering used by template literals in error messages. -/
def valMsg : Val → String
  | .null => "null"
  | .bool b => if b then "true" else "false"
  | .num n => toString n
  | .str s => s
  | .obj _ => "[object Object]"

/-- `WorkflowStepStatus` (core/interfaces.ts lines 104-110). -/
inductive WorkflowStepStatus where
  | pending : WorkflowStepStatus
  | running : WorkflowStepStatus
  | success : WorkflowStepStatus
  | failed : WorkflowStepStatus
  | skipped : WorkflowStepStatus
deriving DecidableEq

/-- The `retry` policy of a step definition (workflow-definition.ts lines
14-17); the TS fields are `number`s, embedded as `Int`. -/
structure RetryPolicy where
  maxAttempts : Int
  delay : Int
deriving DecidableEq

/-- `WorkflowStepDefinition` (workflow-definition.ts lines 6-18).  The
`type` union is represented by its runtime string, which is how the engine's
executor map is keyed. -/
structure WorkflowStepDefinition where
  id : String
  name : String
  type : String
  provider : Option String := none
  config : Option Ctx := none
  onSuccess : Option String := none
  onFailure : Option String := none
  retry : Option RetryPolicy := none

/-- `WorkflowDefinition` (workflow-definition.ts lines 23-29). -/
structure WorkflowDefinition where
  id : String
  name : String
  description : Option String := none
  steps : List WorkflowStepDefinition
  trigger : String

/-- The single execution-context object of one run.  `input: context`
(engine line 141) stores a reference to it; there is exactly one such object
per run, so the reference type has one inhabitant. -/
inductive ContextRef where
  | theContext : ContextRef
deriving DecidableEq

/-- Dereference a recorded `input` against the context object's current
value: reading `step.input` at any time yields the context as it stands at
that time. -/
def ContextRef.deref : ContextRef → Ctx → Ctx
  | .theContext, current => current

/-- `WorkflowStep`, the execution-time record (core/interfaces.ts lines
129-139), timestamps as logical-clock ticks. -/
structure WorkflowStep where
  id : String
  name : String
  status : WorkflowStepStatus
  provider : Option String := none
  input : ContextRef := .theContext
  output : Option Ctx := none
  error : Option String := none
  startedAt : Option Nat := none
  completedAt : Option Nat := none

/-- The result object of `IStepExecutor.execute` (step-executor.ts line
30). -/
structure StepResult where
  output : Option Ctx := none
  nextStepId : Option String := none

/-- The slice of `IProvider` (core/interfaces.ts lines 70-116) the embedded
executors touch: `checkFreeShipping?` is an optional capability; it receives
the raw `context.orderId` value and either resolves to a notification value
(`Val.null` for `null`) or rejects with an error message. -/
structure Provider where
  id : String
  name : String
  checkFreeShipping : Option (Val → Except String Val) := none

/-- `providers: Map<string, IProvider>`: `Map.get` as a partial function. -/
abbrev ProviderTable := String → Option Provider

/-- A step executor: `execute(step, context, providers)` returning a promise
that resolves to a `StepResult` or rejects with an error message.  The extra
`Nat` is the invocation index within one step execution, modelling the
external world's state across retried invocations. -/
abbrev Executor :=
  WorkflowStepDefinition → Ctx → ProviderTable → Nat → Except String StepResult

/-- `stepExecutors: Map<string, IStepExecutor>`: `Map.get` as a partial
function. -/
abbrev ExecutorTable := String → Option Executor

/-- `CheckFreeShippingStepExecutor.execute` (step-executor.ts lines
116-150). -/
def CheckFreeShippingStepExecutor (step : WorkflowStepDefinition) (ctx : Ctx)
    (providers : ProviderTable) : Except String StepResult :=
  let providerId := jsOrVal (step.provider.map Val.str) (lookupCtx ctx "provider")
  if ¬ truthyOpt providerId then
    .error "Provider is required for check_free_shipping step"
  else if ¬ truthyOpt (lookupCtx ctx "orderId") then
    .error "Order ID is required for check_free_shipping step"
  else
    match (match providerId with | some (.str s) => providers s | _ => none) with
    | none =>
        .error ("Provider " ++ valMsg (providerId.getD .null) ++ " not found")
    | some provider =>
        match provider.checkFreeShipping with
        | none =>
            .ok { output := some [("notification", Val.null)],
                  nextStepId := step.onFailure }
        | some check =>
            match check ((lookupCtx ctx "orderId").getD .null) with
            | .error e => .error e
            | .ok notification =>
                .ok { output := some [("notification", notification)],
                      nextStepId :=
                        if truthy notification then step.onSuccess
                        else step.onFailure }

/-- `CheckFreeShippingStepExecutor` as an engine executor; the built-in is
deterministic per invocation, so the invocation index is unused. -/
def checkFreeShippingExec : Executor :=
  fun step ctx providers _ => CheckFreeShippingStepExecutor step ctx providers

/-- The webhook payload (step-executor.ts lines 172-178).  The `timestamp:
new Date()` field is wall-clock and inspected by nothing in scope, so it is
not modelled. -/
structure WebhookPayload where
  event : Option Val
  data : Option Val
  orderId : Option Val
  provider : Option Val

/-- `WebhookStepExecutor.execute` (step-executor.ts lines 155-193), with the
injected `webhookCaller` delivery function passed explicitly (it was closed
over at construction). -/
def WebhookStepExecutor (webhookCaller : Val → WebhookPayload → Except String Unit)
    (step : WorkflowStepDefinition) (ctx : Ctx) : Except String StepResult :=
  let webhookUrl :=
    jsOrVal (step.config.bind (fun c => lookupCtx c "url"))
      ((lookupCtx ctx "input").bind (fun v => getProp v "webhookUrl"))
  if ¬ truthyOpt webhookUrl then
    .error "Webhook URL is required for webhook step"
  else
    let payload : WebhookPayload :=
      { event := step.config.bind (fun c => lookupCtx c "event"),
        data := lookupCtx ctx "input",
        orderId := lookupCtx ctx "orderId",
        provider := lookupCtx ctx "provider" }
    match webhookCaller (webhookUrl.getD .null) payload with
    | .ok _ =>
        .ok { output := some [("success", Val.bool true)],
              nextStepId := step.onSuccess }
    | .error e =>
        .ok { output := some [("success", Val.bool false), ("error", Val.str e)],
              nextStepId := step.onFailure }

/-- `WebhookStepExecutor` as an engine executor; the delivery function is
external I/O, so its behaviour may vary with the invocation index. -/
def webhookExec (caller : Nat → Val → WebhookPayload → Except String Unit) : Executor :=
  fun step ctx _ a => WebhookStepExecutor (caller a) step ctx

/-- One observable event inside a step execution: an executor invocation
(with its index) or a retry-backoff wait of the given milliseconds. -/
inductive Event where
  | invoke : Nat → Event
  | wait : Int → Event
deriving DecidableEq

/-- How the retry loop of `executeStep` (engine lines 155-177) ended. -/
inductive LoopExit where
  | succeeded : StepResult → LoopExit
  | threw : String → LoopExit
  | ranOut : LoopExit

/-- The retry loop body (engine lines 155-177), structurally recursive on
`remaining = maxAttempts.toNat - attempts`, the number of loop iterations
the guard `attempts < maxAttempts` still admits.  `remaining = 0` is the
guard failing (so for `maxAttempts ≤ 0` the loop never runs and the step is
returned still RUNNING); on an executor error, `attempts` is incremented and
the error is re-thrown exactly when the incremented count reaches
`maxAttempts`, i.e. when `remaining` was 1; otherwise the loop waits
`delay` milliseconds (when positive) and retries. -/
def retryGo (inv : Nat → Except String StepResult) (delay : Int) (attempts : Nat) :
    Nat → LoopExit × List Event
  | 0 => (.ranOut, [])
  | remaining + 1 =>
    match inv attempts with
    | .ok r => (.succeeded r, [.invoke attempts])
    | .error e =>
      match remaining with
      | 0 => (.threw e, [.invoke attempts])
      | m + 1 =>
        let rest := retryGo inv delay (attempts + 1) (m + 1)
        (rest.1, .invoke attempts :: ((if delay > 0 then [Event.wait delay] else []) ++ rest.2))

/-- `maxAttempts = stepDef.retry?.maxAttempts || 1` (engine line 152). -/
def effMaxAttempts (retry : Option RetryPolicy) : Int :=
  jsOrInt (retry.map (fun r => r.maxAttempts)) 1

/-- `retryDelay = stepDef.retry?.delay || 0` (engine line 153). -/
def effRetryDelay (retry : Option RetryPolicy) : Int :=
  jsOrInt (retry.map (fun r => r.delay)) 0

/-- `WorkflowEngine.executeStep` (engine lines 130-185): build the RUNNING
step record whose `input` is a reference to the context object, resolve the
executor (failing the step immediately when none is registered for the
type), run the retry loop, and finalize the record.  Returns the record, the
advanced logical clock, and the event trace.  When the retry loop ends
without success or thrown error (possible only for a negative
`maxAttempts`), the record is returned still RUNNING with no
`completedAt`. -/
def executeStep (executors : ExecutorTable) (stepDef : WorkflowStepDefinition)
    (ctx : Ctx) (providers : ProviderTable) (clock : Nat) :
    WorkflowStep × Nat × List Event :=
  let step : WorkflowStep :=
    { id := stepDef.id, name := stepDef.name, status := .running,
      provider := stepDef.provider, input := .theContext,
      startedAt := some clock }
  let clock1 := clock + 1
  match executors stepDef.type with
  | none =>
      ({ step with
          status := .failed
          error := some ("No executor found for step type: " ++ stepDef.type)
          completedAt := some clock1 }, clock1 + 1, [])
  | some ex =>
      let maxA := effMaxAttempts stepDef.retry
      let d := effRetryDelay stepDef.retry
      match retryGo (fun a => ex stepDef ctx providers a) d 0 maxA.toNat with
      | (.succeeded r, evs) =>
          ({ step with
              status := .success
              output := r.output
              completedAt := some clock1 }, clock1 + 1, evs)
      | (.threw e, evs) =>
          ({ step with
              status := .failed
              error := some e
              completedAt := some clock1 }, clock1 + 1, evs)
      | (.ranOut, evs) => (step, clock1, evs)

/-- The engine-owned fields of a `WorkflowExecution` during the walk,
together with the run's single context object, the logical clock, and (as a
specification-side observation, not data of the source) the value the
context had at the start of each executed step. -/
structure WalkState where
  execStatus : WorkflowStepStatus
  execError : Option String
  execCompletedAt : Option Nat
  steps : List WorkflowStep
  ctx : Ctx
  clock : Nat
  snapshots : List Ctx

/-- After the loop (engine lines 121-124): a still-RUNNING execution becomes
SUCCESS, and `completedAt` is always stamped. -/
def finalize (st : WalkState) : WalkState :=
  let st1 := if st.execStatus = .running then { st with execStatus := .success } else st
  { st1 with execCompletedAt := some st1.clock, clock := st1.clock + 1 }

/-- The graph walk of `executeWorkflowAsync` (engine lines 90-125),
structurally recursive on a fuel bound on the number of loop iterations (the
source loop can diverge on a cyclic graph; a `false` flag reports that fuel
ran out with the state as it stood).  `while (currentStepId)` continues only
on a truthy (nonempty) id; an id that does not resolve in the definition's
step list breaks the walk silently; a FAILED step copies its error to the
execution, stamps `completedAt` and breaks; otherwise the step's output is
merged into the context object and the walk continues at
`stepDef.onSuccess` for a SUCCESS status (the FAILED arm of the source's
if/else chain, line 115, is unreachable, and any other status breaks). -/
def walk (executors : ExecutorTable) (wf : WorkflowDefinition)
    (providers : ProviderTable) :
    Nat → Option String → WalkState → WalkState × Bool
  | _, none, st => (finalize st, true)
  | 0, some cid, st =>
      if cid = "" then (finalize st, true) else (st, false)
  | fuel + 1, some cid, st =>
      if cid = "" then (finalize st, true)
      else
        match wf.steps.find? (fun s => s.id == cid) with
        | none => (finalize st, true)
        | some stepDef =>
          let r := executeStep executors stepDef st.ctx providers st.clock
          let step := r.1
          let st1 : WalkState :=
            { st with
                steps := st.steps ++ [step]
                snapshots := st.snapshots ++ [st.ctx]
                clock := r.2.1 }
          if step.status = .failed then
            (finalize { st1 with
                          execStatus := .failed
                          execError := step.error
                          execCompletedAt := some st1.clock
                          clock := st1.clock + 1 }, true)
          else
            let ctx1 :=
              match step.output with
              | some out => assignCtx st1.ctx out
              | none => st1.ctx
            let next : Option String :=
              if step.status = .success then stepDef.onSuccess
              else if step.status = .failed then stepDef.onFailure
              else none
            walk executors wf providers fuel next { st1 with ctx := ctx1 }

/-- `WorkflowEngine.execute` + `executeWorkflowAsync` entry (engine lines
52-88): allocate the execution record with status RUNNING, `startedAt` =
clock 0, empty step list; clone the caller's context into the run's single
context object; start the walk at `workflow.steps[0]?.id`. -/
def runWorkflow (executors : ExecutorTable) (wf : WorkflowDefinition)
    (initialContext : Ctx) (providers : ProviderTable) (fuel : Nat) :
    WalkState × Bool :=
  let st : WalkState :=
    { execStatus := .running, execError := none, execCompletedAt := none,
      steps := [], ctx := initialContext, clock := 1, snapshots := [] }
  walk executors wf providers fuel ((wf.steps.head?).map (fun s => s.id)) st

/-- Number of executor invocations in an event trace. -/
def countInvokes (evs : List Event) : Nat :=
  (evs.filter (fun e => match e with | .invoke _ => true | _ => false)).length

/-- The event trace of a retry loop all of whose `n` admitted invocations
throw: invocations `start, start+1, …, start+n-1`, with a wait of `delay`
milliseconds between consecutive ones when `delay > 0` and none after the
last. -/
def failTrace (delay : Int) (start : Nat) : Nat → List Event
  | 0 => []
  | 1 => [.invoke start]
  | m + 2 =>
      .invoke start ::
        ((if delay > 0 then [Event.wait delay] else []) ++ failTrace delay (start + 1) (m + 1))

/-- How one executed step transforms the context object: a FAILED step
breaks before the merge, any other recorded step merges its output (when
present). -/
def stepCtxFold (c : Ctx) (s : WorkflowStep) : Ctx :=
  if s.status = .failed then c
  else
    match s.output with
    | some out => assignCtx c out
    | none => c

/-! Relations used to state that two executor results differ only in the
`nextStepId` hint, and concrete fixtures evaluated by the claim theorems'
witnesses and counterexamples. -/

def execResultMatch : Except String StepResult → Except String StepResult → Prop
  | .ok r1, .ok r2 => r1.output = r2.output
  | .error e1, .error e2 => e1 = e2
  | _, _ => False

def exitMatch : LoopExit → LoopExit → Prop
  | .succeeded r1, .succeeded r2 => r1.output = r2.output
  | .threw e1, .threw e2 => e1 = e2
  | .ranOut, .ranOut => True
  | _, _ => False

def tablesMatch (f g : ExecutorTable) : Prop :=
  ∀ t : String,
    match f t, g t with
    | some e1, some e2 =>
        ∀ sd : WorkflowStepDefinition, ∀ c : Ctx, ∀ p : ProviderTable, ∀ a : Nat,
          execResultMatch (e1 sd c p a) (e2 sd c p a)
    | none, none => True
    | _, _ => False

def outExec (out : Ctx) : Executor :=
  fun _ _ _ _ => .ok { output := some out }

def abTable : ExecutorTable :=
  fun t => if t = "ta" then some (outExec [("x", .num 1)])
           else if t = "tb" then some (outExec [("x", .num 2)]) else none

def abStepA : WorkflowStepDefinition :=
  { id := "a", name := "A", type := "ta", onSuccess := some "b" }

def abStepB : WorkflowStepDefinition :=
  { id := "b", name := "B", type := "tb" }

def abWf : WorkflowDefinition :=
  { id := "wf-ab", name := "two step", trigger := "manual", steps := [abStepA, abStepB] }

def abCtx0 : Ctx := [("x", .num 0), ("z", .num 9)]

def abRun : WalkState := (runWorkflow abTable abWf abCtx0 (fun _ => none) 5).1

def abRecA : WorkflowStep :=
  { id := "a", name := "A", status := .success, provider := none, input := .theContext,
    output := some [("x", .num 1)], error := none, startedAt := some 1, completedAt := some 2 }

def abRecB : WorkflowStep :=
  { id := "b", name := "B", status := .success, provider := none, input := .theContext,
    output := some [("x", .num 2)], error := none, startedAt := some 3, completedAt := some 4 }

example : abRun.steps = [abRecA, abRecB] := rfl
example : abRun.ctx = [("x", .num 2), ("z", .num 9)] := rfl
example : abRun.snapshots = [abCtx0, [("x", .num 1), ("z", .num 9)]] := rfl

def noCapProvider : Provider := { id := "p", name := "P" }

def cfsProviders : ProviderTable := fun s => if s = "p" then some noCapProvider else none

def cfsTable : ExecutorTable :=
  fun t => if t = "check_free_shipping" then some checkFreeShippingExec
           else if t = "tnext" then some (outExec []) else none

def cfsStep1 : WorkflowStepDefinition :=
  { id := "s1", name := "Check", type := "check_free_shipping",
    provider := some "p", onSuccess := some "s2", onFailure := some "s3" }

def cfsWf : WorkflowDefinition :=
  { id := "wf-cfs", name := "free shipping", trigger := "manual",
    steps := [cfsStep1,
              { id := "s2", name := "Next", type := "tnext" },
              { id := "s3", name := "Fallback", type := "tnext" }] }

def cfsCtx0 : Ctx := [("orderId", .str "o1")]

def cfsRun : WalkState := (runWorkflow cfsTable cfsWf cfsCtx0 cfsProviders 5).1

def c4St : WalkState :=
  { execStatus := .running, execError := none, execCompletedAt := none,
    steps := [], ctx := cfsCtx0, clock := 1, snapshots := [] }

def throwCaller : Nat → Val → WebhookPayload → Except String Unit :=
  fun _ _ _ => .error "boom"

def whTable : ExecutorTable :=
  fun t => if t = "webhook" then some (webhookExec throwCaller) else none

def whStep : WorkflowStepDefinition :=
  { id := "w1", name := "Notify", type := "webhook", onSuccess := some "w2",
    config := some [("url", .str "https://example.test/hook"), ("event", .str "order.created")] }

def whWf : WorkflowDefinition :=
  { id := "wf-wh", name := "webhook wf", trigger := "manual",
    steps := [whStep, { id := "w2", name := "After", type := "missing" }] }

def whSt : WalkState :=
  { execStatus := .running, execError := none, execCompletedAt := none,
    steps := [], ctx := [], clock := 1, snapshots := [] }

def failExec : Executor := fun _ _ _ _ => .error "kaput"

def failTable : ExecutorTable := fun t => if t = "tf" then some failExec else none

def failWf : WorkflowDefinition :=
  { id := "wf-fail", name := "fail wf", trigger := "manual",
    steps := [{ id := "f1", name := "Fail", type := "tf" }] }

def failRec : WorkflowStep :=
  { id := "f1", name := "Fail", status := .failed, provider := none, input := .theContext,
    output := none, error := some "kaput", startedAt := some 1, completedAt := some 2 }

example : (runWorkflow failTable failWf [] (fun _ => none) 3).1.steps = [failRec] := rfl

def errExec : Executor := fun _ _ _ _ => .error "boom"

def errTable : ExecutorTable := fun t => if t = "tr" then some errExec else none

def r3Step : WorkflowStepDefinition :=
  { id := "r1", name := "Retry", type := "tr", retry := some ⟨3, 5⟩ }

def r0Step : WorkflowStepDefinition :=
  { id := "z1", name := "Zero", type := "tz", retry := some ⟨0, 7⟩ }

def okExec : Executor := outExec [("ok", .bool true)]

def okTable : ExecutorTable := fun t => if t = "tz" then some okExec else none

def c3St : WalkState :=
  { execStatus := .running, execError := none, execCompletedAt := none,
    steps := [], ctx := [], clock := 4, snapshots := [] }

def w8aExec : Executor :=
  fun _ _ _ _ => .ok { output := some [("k", .num 1)], nextStepId := some "hint-a" }

def w8bExec : Executor :=
  fun _ _ _ _ => .ok { output := some [("k", .num 1)], nextStepId := none }

def w8aTable : ExecutorTable := fun t => if t = "tw" then some w8aExec else none

def w8bTable : ExecutorTable := fun t => if t = "tw" then some w8bExec else none

def w8Wf : WorkflowDefinition :=
  { id := "wf-w8", name := "hint wf", trigger := "manual",
    steps := [{ id := "h1", name := "Hinted", type := "tw" }] }

/-! Supporting lemmas. -/

lemma or_none_left {α : Type} (b : Option α) : (Option.none : Option α).or b = b := by
  cases b <;> rfl

lemma lookup_map_replace_ne (c : Ctx) (k0 k : String) (v0 : Val) (hk : k ≠ k0) :
    lookupCtx (c.map (fun p => if p.1 == k0 then (k0, v0) else p)) k = lookupCtx c k := by
  unfold lookupCtx
  rw [List.find?_map]
  have hfun : ((fun p : String × Val => p.1 == k) ∘
      (fun p => if p.1 == k0 then (k0, v0) else p)) = (fun p : String × Val => p.1 == k) := by
    funext q
    by_cases h0 : q.1 = k0
    · simp [Function.comp, h0, Ne.symm hk]
    · simp [Function.comp, h0]
  rw [hfun]
  cases hfind : c.find? (fun p => p.1 == k) with
  | none => rfl
  | some q =>
    have hq := List.find?_some hfind
    have hq' : q.1 ≠ k0 := by
      intro h
      exact hk ((beq_iff_eq.mp hq).symm.trans h)
    simp [Option.map_map, Function.comp, hq']

lemma lookup_map_replace_eq (c : Ctx) (k0 : String) (v0 : Val) :
    lookupCtx (c.map (fun p => if p.1 == k0 then (k0, v0) else p)) k0 =
      if c.any (fun p => p.1 == k0) then some v0 else none := by
  unfold lookupCtx
  rw [List.find?_map]
  have hfun : ((fun p : String × Val => p.1 == k0) ∘
      (fun p => if p.1 == k0 then (k0, v0) else p)) = (fun p : String × Val => p.1 == k0) := by
    funext q
    by_cases h0 : q.1 = k0
    · simp [Function.comp, h0]
    · simp [Function.comp, h0]
  rw [hfun]
  cases hfind : c.find? (fun p => p.1 == k0) with
  | none =>
    have : ¬ c.any (fun p => p.1 == k0) = true := by
      intro hany
      rcases List.any_eq_true.mp hany with ⟨x, hx, hpx⟩
      have := List.find?_eq_none.mp hfind x hx
      exact this hpx
    simp [this]
  | some q =>
    have hq := List.find?_some hfind
    have hany : c.any (fun p => p.1 == k0) = true :=
      List.any_eq_true.mpr ⟨q, List.mem_of_find?_eq_some hfind, hq⟩
    have hq' : q.1 = k0 := beq_iff_eq.mp hq
    simp [hany, Option.map_map, Function.comp, hq']

lemma lookup_setKey (c : Ctx) (k0 k : String) (v0 : Val) :
    lookupCtx (setKey c k0 v0) k = if k = k0 then some v0 else lookupCtx c k := by
  unfold setKey
  by_cases hany : c.any (fun p => p.1 == k0)
  · rw [if_pos hany]
    by_cases hk : k = k0
    · subst hk
      rw [if_pos rfl, lookup_map_replace_eq, if_pos hany]
    · rw [if_neg hk, lookup_map_replace_ne c k0 k v0 hk]
  · rw [if_neg hany]
    unfold lookupCtx
    rw [List.find?_append]
    by_cases hk : k = k0
    · subst hk
      have hn : c.find? (fun p => p.1 == k) = none := by
        rw [List.find?_eq_none]
        intro x hx hpx
        exact hany (List.any_eq_true.mpr ⟨x, hx, hpx⟩)
      rw [hn, if_pos rfl]
      simp [List.find?, or_none_left]
    · rw [if_neg hk]
      have hb : (k0 == k) = false := beq_eq_false_iff_ne.mpr (Ne.symm hk)
      have hhead : (List.find? (fun p => p.1 == k) [(k0, v0)]) = none := by
        simp [List.find?, hb]
      rw [hhead]
      cases hfind : c.find? (fun p => p.1 == k) <;> simp [Option.or]

lemma lookup_assign (c : Ctx) (out : Ctx) (k : String) :
    lookupCtx (assignCtx c out) k = (lastVal out k).or (lookupCtx c k) := by
  induction out generalizing c with
  | nil => simp [assignCtx, lastVal, List.find?, or_none_left]
  | cons p t ih =>
    unfold assignCtx at *
    simp only [List.foldl_cons]
    rw [ih (setKey c p.1 p.2)]
    unfold lastVal
    simp only [List.reverse_cons, List.find?_append]
    rw [lookup_setKey]
    cases hn : t.reverse.find? (fun q => q.1 == k) with
    | some q =>
      simp [Option.or]
    | none =>
      by_cases hk : k = p.1
      · subst hk
        simp [List.find?, Option.or]
      · have : (p.1 == k) = false := by simp [Ne.symm hk]
        simp [List.find?, this, hk, Option.or]

lemma retryGo_allFail (inv : Nat → Except String StepResult) (d : Int)
    (errf : Nat → String) (hinv : ∀ a, inv a = .error (errf a)) :
    ∀ n attempts, retryGo inv d attempts (n + 1) =
      (.threw (errf (attempts + n)), failTrace d attempts (n + 1)) := by
  intro n
  induction n with
  | zero =>
    intro attempts
    simp [retryGo, hinv attempts, failTrace]
  | succ m ih =>
    intro attempts
    have hrec := ih (attempts + 1)
    simp only [retryGo, hinv attempts, failTrace, hrec]
    have : attempts + 1 + m = attempts + (m + 1) := by omega
    rw [this]

lemma countInvokes_failTrace (d : Int) : ∀ n start, countInvokes (failTrace d start n) = n := by
  intro n
  induction n with
  | zero => intro start; rfl
  | succ m ih =>
    intro start
    match m with
    | 0 => rfl
    | m' + 1 =>
      unfold failTrace countInvokes
      by_cases hd : d > 0
      · simp only [if_pos hd]
        have := ih (start + 1)
        unfold countInvokes at this
        simp [List.filter, this]
      · simp only [if_neg hd]
        have := ih (start + 1)
        unfold countInvokes at this
        simp [List.filter, this]

lemma retryGo_ne_ranOut (inv : Nat → Except String StepResult) (d : Int) :
    ∀ n attempts, (retryGo inv d attempts (n + 1)).1 ≠ .ranOut := by
  intro n
  induction n with
  | zero =>
    intro attempts
    unfold retryGo
    cases inv attempts <;> simp
  | succ m ih =>
    intro attempts
    unfold retryGo
    cases inv attempts with
    | ok r => simp
    | error e =>
      simp only
      exact ih (attempts + 1)

lemma retryGo_ok (inv : Nat → Except String StepResult) (d : Int) (attempts n : Nat)
    (r : StepResult) (he : inv attempts = .ok r) :
    retryGo inv d attempts (n + 1) = (.succeeded r, [.invoke attempts]) := by
  conv_lhs => rw [retryGo]
  rw [he]

lemma retryGo_error_last (inv : Nat → Except String StepResult) (d : Int) (attempts : Nat)
    (e : String) (he : inv attempts = .error e) :
    retryGo inv d attempts 1 = (.threw e, [.invoke attempts]) := by
  conv_lhs => rw [retryGo]
  rw [he]

lemma retryGo_error_cont (inv : Nat → Except String StepResult) (d : Int) (attempts m : Nat)
    (e : String) (he : inv attempts = .error e) :
    retryGo inv d attempts (m + 2) =
      ((retryGo inv d (attempts + 1) (m + 1)).1,
        .invoke attempts ::
          ((if d > 0 then [Event.wait d] else []) ++ (retryGo inv d (attempts + 1) (m + 1)).2)) := by
  conv_lhs => rw [retryGo]
  rw [he]

lemma walk_none (ex : ExecutorTable) (wf : WorkflowDefinition) (prov : ProviderTable)
    (fuel : Nat) (st : WalkState) :
    walk ex wf prov fuel none st = (finalize st, true) := by
  cases fuel <;> rfl

lemma walk_notFound (ex : ExecutorTable) (wf : WorkflowDefinition) (prov : ProviderTable)
    (fuel : Nat) (cid : String) (st : WalkState) (hcid : cid ≠ "")
    (hfind : wf.steps.find? (fun s => s.id == cid) = none) :
    walk ex wf prov (fuel + 1) (some cid) st = (finalize st, true) := by
  simp only [walk, if_neg hcid, hfind]

lemma walk_failedStep (ex : ExecutorTable) (wf : WorkflowDefinition) (prov : ProviderTable)
    (fuel : Nat) (cid : String) (st : WalkState) (hcid : cid ≠ "")
    (stepDef : WorkflowStepDefinition)
    (hfind : wf.steps.find? (fun s => s.id == cid) = some stepDef)
    (hst : (executeStep ex stepDef st.ctx prov st.clock).1.status = .failed) :
    walk ex wf prov (fuel + 1) (some cid) st =
      (finalize
        { execStatus := .failed
          execError := (executeStep ex stepDef st.ctx prov st.clock).1.error
          execCompletedAt := some (executeStep ex stepDef st.ctx prov st.clock).2.1
          steps := st.steps ++ [(executeStep ex stepDef st.ctx prov st.clock).1]
          ctx := st.ctx
          clock := (executeStep ex stepDef st.ctx prov st.clock).2.1 + 1
          snapshots := st.snapshots ++ [st.ctx] }, true) := by
  simp only [walk, if_neg hcid, hfind, hst, if_pos]

lemma walk_contStep (ex : ExecutorTable) (wf : WorkflowDefinition) (prov : ProviderTable)
    (fuel : Nat) (cid : String) (st : WalkState) (hcid : cid ≠ "")
    (stepDef : WorkflowStepDefinition)
    (hfind : wf.steps.find? (fun s => s.id == cid) = some stepDef)
    (hst : (executeStep ex stepDef st.ctx prov st.clock).1.status ≠ .failed) :
    walk ex wf prov (fuel + 1) (some cid) st =
      walk ex wf prov fuel
        (if (executeStep ex stepDef st.ctx prov st.clock).1.status = .success then
          stepDef.onSuccess
        else none)
        { st with
            steps := st.steps ++ [(executeStep ex stepDef st.ctx prov st.clock).1]
            snapshots := st.snapshots ++ [st.ctx]
            clock := (executeStep ex stepDef st.ctx prov st.clock).2.1
            ctx :=
              match (executeStep ex stepDef st.ctx prov st.clock).1.output with
              | some out => assignCtx st.ctx out
              | none => st.ctx } := by
  simp only [walk, if_neg hcid, hfind, hst, if_neg, if_false]

lemma getElem_append_last {α : Type} (a : List α) (y x : α) (i : Nat)
    (h : (a ++ [y])[i]? = some x) (hge : a.length ≤ i) : x = y ∧ i = a.length := by
  have hlt : i < (a ++ [y]).length := by
    rcases Nat.lt_or_ge i (a ++ [y]).length with hlt | hge2
    · exact hlt
    · rw [List.getElem?_eq_none hge2] at h
      exact Option.noConfusion h
  have hlen : i < a.length + 1 := by simpa using hlt
  have hi : i = a.length := by omega
  rw [List.getElem?_append, if_neg (by omega), hi] at h
  simp at h
  exact ⟨h.symm, hi⟩

lemma getElem_append_mem {α : Type} (a b : List α) (x : α) (i : Nat)
    (h : (a ++ b)[i]? = some x) (hlt : i < a.length) : x ∈ a := by
  rw [List.getElem?_append, if_pos hlt] at h
  exact List.getElem?_mem h

lemma finalize_steps (st : WalkState) : (finalize st).steps = st.steps := by
  unfold finalize
  by_cases h : st.execStatus = .running <;> simp [h]

lemma finalize_ctx (st : WalkState) : (finalize st).ctx = st.ctx := by
  unfold finalize
  by_cases h : st.execStatus = .running <;> simp [h]

lemma finalize_error (st : WalkState) : (finalize st).execError = st.execError := by
  unfold finalize
  by_cases h : st.execStatus = .running <;> simp [h]

lemma finalize_completedAt (st : WalkState) :
    (finalize st).execCompletedAt = some st.clock := by
  unfold finalize
  by_cases h : st.execStatus = .running <;> simp [h]

lemma finalize_status_notRunning (st : WalkState) (h : st.execStatus ≠ .running) :
    (finalize st).execStatus = st.execStatus := by
  unfold finalize
  simp [h]

lemma finalize_status_running (st : WalkState) (h : st.execStatus = .running) :
    (finalize st).execStatus = .success := by
  unfold finalize
  simp [h]

lemma walk_chain (ex : ExecutorTable) (wf : WorkflowDefinition) (prov : ProviderTable) :
    ∀ fuel : Nat, ∀ cur : Option String, ∀ st : WalkState, ∃ new : List WorkflowStep,
      ((walk ex wf prov fuel cur st).1).steps = st.steps ++ new ∧
      ((walk ex wf prov fuel cur st).1).ctx = new.foldl stepCtxFold st.ctx := by
  intro fuel
  induction fuel with
  | zero =>
    intro cur st
    refine ⟨[], ?_⟩
    cases cur with
    | none => rw [walk_none]; simp [finalize_steps, finalize_ctx]
    | some cid =>
      by_cases hcid : cid = ""
      · simp only [walk, if_pos hcid]
        simp [finalize_steps, finalize_ctx]
      · simp only [walk, if_neg hcid]
        simp
  | succ f ih =>
    intro cur st
    cases cur with
    | none =>
      exact ⟨[], by rw [walk_none]; simp [finalize_steps, finalize_ctx]⟩
    | some cid =>
      by_cases hcid : cid = ""
      · exact ⟨[], by simp only [walk, if_pos hcid]; simp [finalize_steps, finalize_ctx]⟩
      · cases hfind : wf.steps.find? (fun s => s.id == cid) with
        | none =>
          exact ⟨[], by rw [walk_notFound ex wf prov f cid st hcid hfind]
                        simp [finalize_steps, finalize_ctx]⟩
        | some stepDef =>
          by_cases hfail : (executeStep ex stepDef st.ctx prov st.clock).1.status = .failed
          · refine ⟨[(executeStep ex stepDef st.ctx prov st.clock).1], ?_⟩
            rw [walk_failedStep ex wf prov f cid st hcid stepDef hfind hfail]
            constructor
            · simp [finalize_steps]
            · simp [finalize_ctx, stepCtxFold, hfail]
          · rw [walk_contStep ex wf prov f cid st hcid stepDef hfind hfail]
            obtain ⟨new', h1, h2⟩ := ih _ _
            refine ⟨(executeStep ex stepDef st.ctx prov st.clock).1 :: new', ?_, ?_⟩
            · rw [h1]; simp
            · rw [h2]
              simp only [List.foldl_cons]
              congr 1
              simp only [stepCtxFold, if_neg hfail]

lemma walk_failed_last (ex : ExecutorTable) (wf : WorkflowDefinition) (prov : ProviderTable) :
    ∀ fuel : Nat, ∀ cur : Option String, ∀ st : WalkState, ∀ r : WalkState,
      (∀ s ∈ st.steps, s.status ≠ .failed) → st.execStatus = .running →
      walk ex wf prov fuel cur st = (r, true) →
      ∀ i : Nat, ∀ s : WorkflowStep, r.steps[i]? = some s → s.status = .failed →
        i + 1 = r.steps.length ∧ r.execStatus = .failed ∧ r.execError = s.error ∧
          r.execCompletedAt.isSome = true := by
  intro fuel
  induction fuel with
  | zero =>
    intro cur st r hnf hrun hw i s hget hs
    exfalso
    cases cur with
    | none =>
      rw [walk_none] at hw
      have hr : r = finalize st := (Prod.mk.injEq _ _ _ _ ▸ hw).1.symm
      subst hr
      rw [finalize_steps] at hget
      exact hnf s (List.getElem?_mem hget) hs
    | some cid =>
      by_cases hcid : cid = ""
      · simp only [walk, if_pos hcid] at hw
        have hr : r = finalize st := (Prod.mk.injEq _ _ _ _ ▸ hw).1.symm
        subst hr
        rw [finalize_steps] at hget
        exact hnf s (List.getElem?_mem hget) hs
      · simp only [walk, if_neg hcid] at hw
        exact Bool.noConfusion (Prod.mk.injEq _ _ _ _ ▸ hw).2
  | succ f ih =>
    intro cur st r hnf hrun hw i s hget hs
    cases cur with
    | none =>
      rw [walk_none] at hw
      have hr : r = finalize st := (Prod.mk.injEq _ _ _ _ ▸ hw).1.symm
      subst hr
      rw [finalize_steps] at hget
      exact absurd hs (hnf s (List.getElem?_mem hget))
    | some cid =>
      by_cases hcid : cid = ""
      · simp only [walk, if_pos hcid] at hw
        have hr : r = finalize st := (Prod.mk.injEq _ _ _ _ ▸ hw).1.symm
        subst hr
        rw [finalize_steps] at hget
        exact absurd hs (hnf s (List.getElem?_mem hget))
      · cases hfind : wf.steps.find? (fun p => p.id == cid) with
        | none =>
          rw [walk_notFound ex wf prov f cid st hcid hfind] at hw
          have hr : r = finalize st := (Prod.mk.injEq _ _ _ _ ▸ hw).1.symm
          subst hr
          rw [finalize_steps] at hget
          exact absurd hs (hnf s (List.getElem?_mem hget))
        | some stepDef =>
          by_cases hfail : (executeStep ex stepDef st.ctx prov st.clock).1.status = .failed
          · rw [walk_failedStep ex wf prov f cid st hcid stepDef hfind hfail] at hw
            have hr := (Prod.mk.injEq _ _ _ _ ▸ hw).1.symm
            subst hr
            rw [finalize_steps] at hget
            rcases Nat.lt_or_ge i st.steps.length with hlt | hge
            · exact absurd hs (hnf s (getElem_append_mem _ _ _ _ hget hlt))
            · obtain ⟨hsx, hi⟩ := getElem_append_last _ _ _ _ hget hge
              subst hsx
              refine ⟨?_, ?_, ?_, ?_⟩
              · rw [finalize_steps]
                simp [hi]
              · rw [finalize_status_notRunning]
                simp
              · rw [finalize_error]
              · rw [finalize_completedAt]
                simp
          · rw [walk_contStep ex wf prov f cid st hcid stepDef hfind hfail] at hw
            refine ih _ _ _ ?_ ?_ hw i s hget hs
            · intro s2 hs2
              rcases List.mem_append.mp hs2 with h2 | h2
              · exact hnf s2 h2
              · rw [List.mem_singleton.mp h2]
                exact hfail
            · exact hrun

lemma effMaxAttempts_pos (retry : Option RetryPolicy)
    (h : ∀ rp : RetryPolicy, retry = some rp → 1 ≤ rp.maxAttempts) :
    1 ≤ effMaxAttempts retry := by
  cases retry with
  | none => simp [effMaxAttempts, jsOrInt]
  | some rp =>
    have := h rp rfl
    simp only [effMaxAttempts, jsOrInt, Option.map_some]
    by_cases h0 : rp.maxAttempts = 0
    · simp [h0]
    · simp [h0]
      omega

lemma executeStep_terminal (ex : ExecutorTable) (stepDef : WorkflowStepDefinition)
    (ctx : Ctx) (prov : ProviderTable) (clock : Nat)
    (hretry : ∀ rp : RetryPolicy, stepDef.retry = some rp → 1 ≤ rp.maxAttempts) :
    ((executeStep ex stepDef ctx prov clock).1.status = .success ∨
      (executeStep ex stepDef ctx prov clock).1.status = .failed) ∧
    (executeStep ex stepDef ctx prov clock).1.completedAt.isSome = true := by
  have hpos : 1 ≤ effMaxAttempts stepDef.retry := effMaxAttempts_pos _ hretry
  have htn : ∃ m : Nat, (effMaxAttempts stepDef.retry).toNat = m + 1 := by
    have : 1 ≤ (effMaxAttempts stepDef.retry).toNat := by omega
    exact ⟨(effMaxAttempts stepDef.retry).toNat - 1, by omega⟩
  obtain ⟨m, hm⟩ := htn
  unfold executeStep
  cases hex : ex stepDef.type with
  | none => simp
  | some e =>
    simp only
    rw [hm]
    rcases hrg : retryGo (fun a => e stepDef ctx prov a) (effRetryDelay stepDef.retry) 0 (m + 1)
      with ⟨exit, evs⟩
    cases exit with
    | succeeded rr => simp
    | threw err => simp
    | ranOut =>
      exfalso
      have := retryGo_ne_ranOut (fun a => e stepDef ctx prov a) (effRetryDelay stepDef.retry) m 0
      rw [hrg] at this
      exact this rfl

lemma walk_terminal (ex : ExecutorTable) (wf : WorkflowDefinition) (prov : ProviderTable)
    (hwf : ∀ sd ∈ wf.steps, ∀ rp : RetryPolicy, sd.retry = some rp → 1 ≤ rp.maxAttempts) :
    ∀ fuel : Nat, ∀ cur : Option String, ∀ st : WalkState,
    (∀ s ∈ st.steps, (s.status = .success ∨ s.status = .failed) ∧ s.completedAt.isSome = true) →
    ∀ s ∈ ((walk ex wf prov fuel cur st).1).steps,
      (s.status = .success ∨ s.status = .failed) ∧ s.completedAt.isSome = true := by
  intro fuel
  induction fuel with
  | zero =>
    intro cur st hinv s hs
    cases cur with
    | none =>
      rw [walk_none, finalize_steps] at hs
      exact hinv s hs
    | some cid =>
      by_cases hcid : cid = ""
      · simp only [walk, if_pos hcid, finalize_steps] at hs
        exact hinv s hs
      · simp only [walk, if_neg hcid] at hs
        exact hinv s hs
  | succ f ih =>
    intro cur st hinv s hs
    cases cur with
    | none =>
      rw [walk_none, finalize_steps] at hs
      exact hinv s hs
    | some cid =>
      by_cases hcid : cid = ""
      · simp only [walk, if_pos hcid, finalize_steps] at hs
        exact hinv s hs
      · cases hfind : wf.steps.find? (fun p => p.id == cid) with
        | none =>
          rw [walk_notFound ex wf prov f cid st hcid hfind, finalize_steps] at hs
          exact hinv s hs
        | some stepDef =>
          have hmem : stepDef ∈ wf.steps := List.mem_of_find?_eq_some hfind
          have hterm := executeStep_terminal ex stepDef st.ctx prov st.clock (hwf stepDef hmem)
          by_cases hfail : (executeStep ex stepDef st.ctx prov st.clock).1.status = .failed
          · rw [walk_failedStep ex wf prov f cid st hcid stepDef hfind hfail,
              finalize_steps] at hs
            rcases List.mem_append.mp hs with h2 | h2
            · exact hinv s h2
            · rw [List.mem_singleton.mp h2]
              exact hterm
          · rw [walk_contStep ex wf prov f cid st hcid stepDef hfind hfail] at hs
            refine ih _ _ ?_ s hs
            intro s2 hs2
            rcases List.mem_append.mp hs2 with h2 | h2
            · exact hinv s2 h2
            · rw [List.mem_singleton.mp h2]
              exact hterm

lemma effMaxAttempts_of_pos (N dl : Int) (hN : 1 ≤ N) :
    effMaxAttempts (some ⟨N, dl⟩) = N := by
  have hmap : Option.map (fun r : RetryPolicy => r.maxAttempts) (some ⟨N, dl⟩) = some N := rfl
  simp only [effMaxAttempts, jsOrInt, hmap]
  rw [if_neg (by omega)]

lemma effRetryDelay_some (N dl : Int) : effRetryDelay (some ⟨N, dl⟩) = dl := by
  have hmap : Option.map (fun r : RetryPolicy => r.delay) (some ⟨N, dl⟩) = some dl := rfl
  simp only [effRetryDelay, jsOrInt, hmap]
  by_cases h : dl = 0
  · rw [if_pos h, h]
  · rw [if_neg h]

lemma webhook_exec_swallows (caller : Nat → Val → WebhookPayload → Except String Unit)
    (stepDef : WorkflowStepDefinition) (ctx : Ctx) (m : String) (a : Nat)
    (hurl : truthyOpt (jsOrVal (stepDef.config.bind (fun c => lookupCtx c "url"))
      ((lookupCtx ctx "input").bind (fun v => getProp v "webhookUrl"))) = true)
    (hthrow : ∀ b : Nat, ∀ u : Val, ∀ p : WebhookPayload, caller b u p = .error m) :
    WebhookStepExecutor (caller a) stepDef ctx =
      .ok { output := some [("success", Val.bool false), ("error", Val.str m)],
            nextStepId := stepDef.onFailure } := by
  unfold WebhookStepExecutor
  rw [if_neg (by rw [hurl]; simp)]
  simp only [hthrow]

lemma executeStep_success_once (executors : ExecutorTable)
    (stepDef : WorkflowStepDefinition) (ctx : Ctx) (prov : ProviderTable) (clock : Nat)
    (e : Executor) (res : StepResult)
    (hex : executors stepDef.type = some e)
    (hmax : 1 ≤ effMaxAttempts stepDef.retry)
    (hrun : e stepDef ctx prov 0 = .ok res) :
    executeStep executors stepDef ctx prov clock =
      ({ id := stepDef.id, name := stepDef.name, status := .success,
         provider := stepDef.provider, input := .theContext, output := res.output,
         error := none, startedAt := some clock, completedAt := some (clock + 1) },
       clock + 2, [Event.invoke 0]) := by
  have hm : (effMaxAttempts stepDef.retry).toNat = ((effMaxAttempts stepDef.retry).toNat - 1) + 1 := by
    omega
  simp only [executeStep, hex]
  rw [hm]
  simp [retryGo, hrun]

lemma cfs_exec_unsupported (stepDef : WorkflowStepDefinition) (ctx : Ctx)
    (prov : ProviderTable) (p : String) (provider : Provider)
    (hp : stepDef.provider = some p) (hpne : p ≠ "")
    (hprov : prov p = some provider)
    (hnocap : provider.checkFreeShipping = none)
    (horder : truthyOpt (lookupCtx ctx "orderId") = true) :
    CheckFreeShippingStepExecutor stepDef ctx prov =
      .ok { output := some [("notification", Val.null)],
            nextStepId := stepDef.onFailure } := by
  unfold CheckFreeShippingStepExecutor
  have hpid : jsOrVal (stepDef.provider.map Val.str) (lookupCtx ctx "provider") =
      some (Val.str p) := by
    rw [hp]
    unfold jsOrVal
    rw [if_pos (by simp [truthyOpt, truthy, hpne])]
    rfl
  rw [hpid]
  rw [if_neg (by simp [truthyOpt, truthy, hpne])]
  rw [if_neg (by rw [horder]; simp)]
  simp only [hprov, hnocap]

lemma retryGo_congr (inv1 inv2 : Nat → Except String StepResult) (d : Int)
    (h : ∀ a : Nat, execResultMatch (inv1 a) (inv2 a)) :
    ∀ n attempts : Nat,
      (retryGo inv1 d attempts n).2 = (retryGo inv2 d attempts n).2 ∧
      exitMatch (retryGo inv1 d attempts n).1 (retryGo inv2 d attempts n).1 := by
  intro n
  induction n with
  | zero => intro attempts; exact ⟨rfl, trivial⟩
  | succ m ih =>
    intro attempts
    have hm := h attempts
    cases hi1 : inv1 attempts with
    | ok r1 =>
      cases hi2 : inv2 attempts with
      | ok r2 =>
        rw [hi1, hi2] at hm
        rw [retryGo_ok inv1 d attempts m r1 hi1, retryGo_ok inv2 d attempts m r2 hi2]
        exact ⟨rfl, hm⟩
      | error e2 =>
        rw [hi1, hi2] at hm
        exact hm.elim
    | error e1 =>
      cases hi2 : inv2 attempts with
      | ok r2 =>
        rw [hi1, hi2] at hm
        exact hm.elim
      | error e2 =>
        rw [hi1, hi2] at hm
        have he : e1 = e2 := hm
        subst he
        cases m with
        | zero =>
          rw [retryGo_error_last inv1 d attempts e1 hi1,
            retryGo_error_last inv2 d attempts e1 hi2]
          exact ⟨rfl, rfl⟩
        | succ m2 =>
          have hrec := ih (attempts + 1)
          rw [retryGo_error_cont inv1 d attempts m2 e1 hi1,
            retryGo_error_cont inv2 d attempts m2 e1 hi2]
          refine ⟨?_, hrec.2⟩
          simp only
          rw [hrec.1]

lemma executeStep_congr (t1 t2 : ExecutorTable) (h : tablesMatch t1 t2)
    (sd : WorkflowStepDefinition) (ctx : Ctx) (prov : ProviderTable) (clock : Nat) :
    executeStep t1 sd ctx prov clock = executeStep t2 sd ctx prov clock := by
  have hm := h sd.type
  cases h1 : t1 sd.type with
  | none =>
    cases h2 : t2 sd.type with
    | none => unfold executeStep; rw [h1, h2]
    | some e2 =>
      rw [h1, h2] at hm
      exact hm.elim
  | some e1 =>
    cases h2 : t2 sd.type with
    | none =>
      rw [h1, h2] at hm
      exact hm.elim
    | some e2 =>
      rw [h1, h2] at hm
      rcases hr1 : retryGo (fun a => e1 sd ctx prov a) (effRetryDelay sd.retry) 0
        ((effMaxAttempts sd.retry).toNat) with ⟨x1, evs1⟩
      rcases hr2 : retryGo (fun a => e2 sd ctx prov a) (effRetryDelay sd.retry) 0
        ((effMaxAttempts sd.retry).toNat) with ⟨x2, evs2⟩
      have hc := retryGo_congr (fun a => e1 sd ctx prov a) (fun a => e2 sd ctx prov a)
        (effRetryDelay sd.retry) (fun a => hm sd ctx prov a)
        ((effMaxAttempts sd.retry).toNat) 0
      rw [hr1, hr2] at hc
      obtain ⟨hev, hx⟩ := hc
      simp only at hev
      subst hev
      simp only [executeStep, h1, h2, hr1, hr2]
      cases x1 with
      | succeeded r1 =>
        cases x2 with
        | succeeded r2 =>
          have hout : r1.output = r2.output := hx
          simp [hout]
        | threw e => exact hx.elim
        | ranOut => exact hx.elim
      | threw err1 =>
        cases x2 with
        | succeeded r2 => exact hx.elim
        | threw err2 =>
          have herr : err1 = err2 := hx
          simp [herr]
        | ranOut => exact hx.elim
      | ranOut =>
        cases x2 with
        | succeeded r2 => exact hx.elim
        | threw e => exact hx.elim
        | ranOut => rfl

lemma walk_congr (t1 t2 : ExecutorTable) (wf : WorkflowDefinition) (prov : ProviderTable)
    (h : tablesMatch t1 t2) :
    ∀ fuel : Nat, ∀ cur : Option String, ∀ st : WalkState,
      walk t1 wf prov fuel cur st = walk t2 wf prov fuel cur st := by
  intro fuel
  induction fuel with
  | zero =>
    intro cur st
    cases cur with
    | none => rw [walk_none, walk_none]
    | some cid => rfl
  | succ f ih =>
    intro cur st
    cases cur with
    | none => rw [walk_none, walk_none]
    | some cid =>
      by_cases hcid : cid = ""
      · simp only [walk, if_pos hcid]
      · cases hfind : wf.steps.find? (fun p => p.id == cid) with
        | none =>
          rw [walk_notFound t1 wf prov f cid st hcid hfind,
            walk_notFound t2 wf prov f cid st hcid hfind]
        | some stepDef =>
          have hes := executeStep_congr t1 t2 h stepDef st.ctx prov st.clock
          by_cases hfail : (executeStep t1 stepDef st.ctx prov st.clock).1.status = .failed
          · rw [walk_failedStep t1 wf prov f cid st hcid stepDef hfind hfail,
              walk_failedStep t2 wf prov f cid st hcid stepDef hfind (by rw [← hes]; exact hfail),
              hes]
          · rw [walk_contStep t1 wf prov f cid st hcid stepDef hfind hfail,
              walk_contStep t2 wf prov f cid st hcid stepDef hfind (by rw [← hes]; exact hfail),
              hes, ih]

lemma w8_tablesMatch : tablesMatch w8aTable w8bTable := by
  intro t
  by_cases ht : t = "tw"
  · subst ht
    intro sd c p a
    exact rfl
  · have h1 : w8aTable t = none := if_neg ht
    have h2 : w8bTable t = none := if_neg ht
    rw [h1, h2]
    trivial

/-- C1: a step whose retry policy has `maxAttempts = N` with `N ≥ 1` and whose
resolved executor throws on every invocation invokes the executor exactly `N`
times — the event trace is `failTrace`: invocations `0 .. N-1` with a wait of
the configured retry delay between consecutive attempts and none after the
last — and the step record is returned FAILED, carrying the last error's
message and a `completedAt` stamp. -/
theorem claim1_theorem (executors : ExecutorTable) (stepDef : WorkflowStepDefinition)
    (ctx : Ctx) (prov : ProviderTable) (clock : Nat) (N dl : Int) (e : Executor)
    (errf : Nat → String)
    (hretry : stepDef.retry = some ⟨N, dl⟩) (hN : 1 ≤ N)
    (hex : executors stepDef.type = some e)
    (hfail : ∀ a : Nat, e stepDef ctx prov a = .error (errf a)) :
    executeStep executors stepDef ctx prov clock =
      ({ id := stepDef.id, name := stepDef.name, status := .failed,
         provider := stepDef.provider, input := .theContext, output := none,
         error := some (errf (N.toNat - 1)),
         startedAt := some clock, completedAt := some (clock + 1) },
       clock + 2, failTrace dl 0 N.toNat) ∧
    (countInvokes (failTrace dl 0 N.toNat) : Int) = N := by
  have hm : N.toNat = (N.toNat - 1) + 1 := by omega
  have hrg := retryGo_allFail (fun a => e stepDef ctx prov a) dl errf
    (fun a => hfail a) (N.toNat - 1) 0
  constructor
  · unfold executeStep
    rw [hex]
    simp only [hretry, effMaxAttempts_of_pos N dl hN, effRetryDelay_some]
    rw [hm, hrg]
    simp only [Nat.zero_add]
    rw [← hm]
  · rw [countInvokes_failTrace]
    omega

/-- Witness for C1 at a concrete step with `maxAttempts = 3`, `delay = 5` and an
executor that always throws `boom`: three invocations with waits of 5 between
them, step FAILED with error `boom`. -/
theorem claim1_witness :
    executeStep errTable r3Step [] (fun _ => none) 0 =
      ({ id := "r1", name := "Retry", status := .failed, provider := none,
         input := .theContext, output := none, error := some "boom",
         startedAt := some 0, completedAt := some 1 },
       2, failTrace 5 0 (Int.toNat 3)) ∧
    (countInvokes (failTrace 5 0 (Int.toNat 3)) : Int) = 3 :=
  claim1_theorem errTable r3Step [] (fun _ => none) 0 3 5 errExec (fun _ => "boom")
    rfl (by decide) rfl (fun a => rfl)

example : failTrace 5 0 (Int.toNat 3) =
    [.invoke 0, .wait 5, .invoke 1, .wait 5, .invoke 2] := rfl

/-- C2: in any completed run, a recorded step with status FAILED is the last
record of the step sequence — no further step is appended after it, in
particular its `onFailure` edge is not followed — the execution status is
FAILED, the step's error string is copied to the execution's top-level error,
and `completedAt` is stamped. -/
theorem claim2_theorem (executors : ExecutorTable) (wf : WorkflowDefinition)
    (c0 : Ctx) (prov : ProviderTable) (fuel : Nat) (r : WalkState)
    (i : Nat) (s : WorkflowStep)
    (hrun : runWorkflow executors wf c0 prov fuel = (r, true))
    (hget : r.steps[i]? = some s) (hs : s.status = .failed) :
    i + 1 = r.steps.length ∧ r.execStatus = .failed ∧ r.execError = s.error ∧
      r.execCompletedAt.isSome = true := by
  unfold runWorkflow at hrun
  exact walk_failed_last executors wf prov fuel _ _ r
    (by intro x hx; simp at hx) rfl hrun i s hget hs

/-- Witness for C2 on a concrete one-step run whose executor throws: the failed
step is the last record and its error is the execution's error. -/
theorem claim2_witness :
    0 + 1 = (runWorkflow failTable failWf [] (fun _ => none) 3).1.steps.length ∧
    (runWorkflow failTable failWf [] (fun _ => none) 3).1.execStatus = .failed ∧
    (runWorkflow failTable failWf [] (fun _ => none) 3).1.execError = failRec.error ∧
    (runWorkflow failTable failWf [] (fun _ => none) 3).1.execCompletedAt.isSome = true :=
  claim2_theorem failTable failWf [] (fun _ => none) 3
    (runWorkflow failTable failWf [] (fun _ => none) 3).1 0 failRec rfl rfl rfl

/-- C3: when the walk reaches a step id that does not resolve in the
definition's step list while the execution is still RUNNING with no error
recorded (exactly the state after a successful step whose `onSuccess` names a
nonexistent id), it terminates silently: final status SUCCESS, no top-level
error, `completedAt` stamped, and no further step appended. -/
theorem claim3_theorem (executors : ExecutorTable) (wf : WorkflowDefinition)
    (prov : ProviderTable) (fuel : Nat) (cid : String) (st : WalkState)
    (hcid : cid ≠ "")
    (hfind : wf.steps.find? (fun s => s.id == cid) = none)
    (hrun : st.execStatus = .running) (herr : st.execError = none) :
    (walk executors wf prov (fuel + 1) (some cid) st).1.execStatus = .success ∧
    (walk executors wf prov (fuel + 1) (some cid) st).1.execError = none ∧
    (walk executors wf prov (fuel + 1) (some cid) st).1.execCompletedAt = some st.clock ∧
    (walk executors wf prov (fuel + 1) (some cid) st).1.steps = st.steps ∧
    (walk executors wf prov (fuel + 1) (some cid) st).2 = true := by
  rw [walk_notFound executors wf prov fuel cid st hcid hfind]
  refine ⟨?_, ?_, ?_, ?_, rfl⟩
  · exact finalize_status_running st hrun
  · rw [finalize_error]; exact herr
  · rw [finalize_completedAt]
  · exact finalize_steps st

/-- Witness for C3 at the concrete id `ghost`, which occurs in no step
definition of the two-step workflow. -/
theorem claim3_witness :
    (walk abTable abWf (fun _ => none) 3 (some "ghost") c3St).1.execStatus = .success ∧
    (walk abTable abWf (fun _ => none) 3 (some "ghost") c3St).1.execError = none ∧
    (walk abTable abWf (fun _ => none) 3 (some "ghost") c3St).1.execCompletedAt = some 4 ∧
    (walk abTable abWf (fun _ => none) 3 (some "ghost") c3St).1.steps = c3St.steps ∧
    (walk abTable abWf (fun _ => none) 3 (some "ghost") c3St).2 = true :=
  claim3_theorem abTable abWf (fun _ => none) 2 "ghost" c3St (by decide) rfl rfl rfl

/-- C4 counterexample: in a concrete run of a `check_free_shipping` step
(resolvable provider `p`, `orderId` present, capability absent,
`onSuccess = s2`, `onFailure = s3`), the step is recorded SUCCESS with output
mapping `notification` to null, but the walk visits `s2` — the `onSuccess`
target — and not the `onFailure` target `s3` the claim names: the engine
recomputes branching from the SUCCESS status and ignores the executor's
`nextStepId` hint. -/
theorem claim4_counterexample :
    cfsRun.steps.map (fun s => s.id) = ["s1", "s2"] ∧
    cfsRun.steps.map (fun s => s.status) = [.success, .success] ∧
    cfsRun.steps.map (fun s => s.output) = [some [("notification", Val.null)], some []] ∧
    cfsStep1.onFailure = some "s3" ∧
    cfsRun.steps.map (fun s => s.id) ≠ ["s1", "s3"] :=
  ⟨rfl, rfl, rfl, rfl, by decide⟩

/-- C4 (amended): for every `check_free_shipping` step with a resolvable
provider id and a context `orderId` whose provider lacks the optional
free-shipping capability, the executor succeeds with output mapping
`notification` to null and returns the step's `onFailure` target only as its
`nextStepId` hint; the engine ignores the hint and the walk continues at the
step's `onSuccess` edge. -/
theorem claim4_amended_theorem (executors : ExecutorTable) (wf : WorkflowDefinition)
    (prov : ProviderTable) (fuel : Nat) (cid : String) (st : WalkState)
    (stepDef : WorkflowStepDefinition) (p : String) (provider : Provider)
    (hcid : cid ≠ "")
    (hfind : wf.steps.find? (fun s => s.id == cid) = some stepDef)
    (hex : executors stepDef.type = some checkFreeShippingExec)
    (hp : stepDef.provider = some p) (hpne : p ≠ "")
    (hprov : prov p = some provider)
    (hnocap : provider.checkFreeShipping = none)
    (horder : truthyOpt (lookupCtx st.ctx "orderId") = true)
    (hmax : 1 ≤ effMaxAttempts stepDef.retry) :
    CheckFreeShippingStepExecutor stepDef st.ctx prov =
      .ok { output := some [("notification", Val.null)],
            nextStepId := stepDef.onFailure } ∧
    walk executors wf prov (fuel + 1) (some cid) st =
      walk executors wf prov fuel stepDef.onSuccess
        { st with
            steps := st.steps ++
              [{ id := stepDef.id, name := stepDef.name, status := .success,
                 provider := stepDef.provider, input := .theContext,
                 output := some [("notification", Val.null)],
                 error := none, startedAt := some st.clock,
                 completedAt := some (st.clock + 1) }]
            snapshots := st.snapshots ++ [st.ctx]
            clock := st.clock + 2
            ctx := assignCtx st.ctx [("notification", Val.null)] } := by
  have hres : (checkFreeShippingExec : Executor) stepDef st.ctx prov 0 =
      .ok { output := some [("notification", Val.null)],
            nextStepId := stepDef.onFailure } := by
    unfold checkFreeShippingExec
    exact cfs_exec_unsupported stepDef st.ctx prov p provider hp hpne hprov hnocap horder
  have hstep := executeStep_success_once executors stepDef st.ctx prov st.clock
    checkFreeShippingExec _ hex hmax hres
  refine ⟨cfs_exec_unsupported stepDef st.ctx prov p provider hp hpne hprov hnocap horder, ?_⟩
  rw [walk_contStep executors wf prov fuel cid st hcid stepDef hfind
    (by rw [hstep]; simp)]
  rw [hstep]
  simp

/-- Witness for the amended C4 at the concrete free-shipping workflow: the
executor hints `s3` but the walk continues at `s2`. -/
theorem claim4_amended_witness :
    CheckFreeShippingStepExecutor cfsStep1 c4St.ctx cfsProviders =
      .ok { output := some [("notification", Val.null)], nextStepId := some "s3" } ∧
    walk cfsTable cfsWf cfsProviders 3 (some "s1") c4St =
      walk cfsTable cfsWf cfsProviders 2 (some "s2")
        { c4St with
            steps := [{ id := "s1", name := "Check", status := .success,
                        provider := some "p", input := .theContext,
                        output := some [("notification", Val.null)],
                        error := none, startedAt := some 1, completedAt := some 2 }]
            snapshots := [cfsCtx0]
            clock := 3
            ctx := assignCtx cfsCtx0 [("notification", Val.null)] } :=
  claim4_amended_theorem cfsTable cfsWf cfsProviders 2 "s1" c4St cfsStep1 "p" noCapProvider
    (by decide) rfl rfl rfl (by decide) rfl rfl rfl (by decide)

/-- C5: for a webhook step with a resolvable URL whose injected delivery
function throws, the executor does not fail: the walk records the step with
status SUCCESS and output `success = false` plus the error message, the
execution's status and top-level error fields are untouched, the executor is
invoked exactly once (the delivery error consumes no retry attempts), and the
walk proceeds at the step's `onSuccess` edge — terminating at the next
iteration when that edge is unset. -/
theorem claim5_theorem (executors : ExecutorTable) (wf : WorkflowDefinition)
    (prov : ProviderTable) (fuel : Nat) (cid : String) (st : WalkState)
    (stepDef : WorkflowStepDefinition)
    (caller : Nat → Val → WebhookPayload → Except String Unit) (m : String)
    (hcid : cid ≠ "")
    (hfind : wf.steps.find? (fun s => s.id == cid) = some stepDef)
    (hex : executors stepDef.type = some (webhookExec caller))
    (hurl : truthyOpt (jsOrVal (stepDef.config.bind (fun c => lookupCtx c "url"))
      ((lookupCtx st.ctx "input").bind (fun v => getProp v "webhookUrl"))) = true)
    (hthrow : ∀ b : Nat, ∀ u : Val, ∀ p : WebhookPayload, caller b u p = .error m)
    (hmax : 1 ≤ effMaxAttempts stepDef.retry) :
    walk executors wf prov (fuel + 1) (some cid) st =
      walk executors wf prov fuel stepDef.onSuccess
        { st with
            steps := st.steps ++
              [{ id := stepDef.id, name := stepDef.name, status := .success,
                 provider := stepDef.provider, input := .theContext,
                 output := some [("success", Val.bool false), ("error", Val.str m)],
                 error := none, startedAt := some st.clock,
                 completedAt := some (st.clock + 1) }]
            snapshots := st.snapshots ++ [st.ctx]
            clock := st.clock + 2
            ctx := assignCtx st.ctx [("success", Val.bool false), ("error", Val.str m)] } ∧
    (executeStep executors stepDef st.ctx prov st.clock).2.2 = [Event.invoke 0] := by
  have hres : (webhookExec caller : Executor) stepDef st.ctx prov 0 =
      .ok { output := some [("success", Val.bool false), ("error", Val.str m)],
            nextStepId := stepDef.onFailure } := by
    unfold webhookExec
    exact webhook_exec_swallows caller stepDef st.ctx m 0 hurl hthrow
  have hstep := executeStep_success_once executors stepDef st.ctx prov st.clock
    (webhookExec caller) _ hex hmax hres
  constructor
  · rw [walk_contStep executors wf prov fuel cid st hcid stepDef hfind
      (by rw [hstep]; simp)]
    rw [hstep]
    simp
  · rw [hstep]

/-- Witness for C5 at a concrete webhook step whose delivery function always
throws `boom`: recorded SUCCESS with `success = false`, one invocation, walk
continues at `w2`. -/
theorem claim5_witness :
    walk whTable whWf (fun _ => none) 3 (some "w1") whSt =
      walk whTable whWf (fun _ => none) 2 (some "w2")
        { whSt with
            steps := [{ id := "w1", name := "Notify", status := .success,
                        provider := none, input := .theContext,
                        output := some [("success", Val.bool false), ("error", Val.str "boom")],
                        error := none, startedAt := some 1, completedAt := some 2 }]
            snapshots := [([] : Ctx)]
            clock := 3
            ctx := assignCtx [] [("success", Val.bool false), ("error", Val.str "boom")] } ∧
    (executeStep whTable whStep whSt.ctx (fun _ => none) whSt.clock).2.2 = [Event.invoke 0] :=
  claim5_theorem whTable whWf (fun _ => none) 2 "w1" whSt whStep throwCaller "boom"
    (by decide) rfl rfl rfl (fun b u p => rfl) (by decide)

/-- C6 counterexample: in the concrete two-step run where step A outputs
`x = 1` and step B outputs `x = 2` from the initial context `x = 0, z = 9`,
dereferencing either recorded `input` after the run yields `x = 2`; the first
step's recorded input does not hold the value `x = 0` it had at that step's
start (second conjunct: the per-step start-context snapshots), because
`input: context` stores a reference to the run's mutated context object, not
a copy. -/
theorem claim6_counterexample :
    abRun.steps.map (fun s => lookupCtx (ContextRef.deref s.input abRun.ctx) "x") =
      [some (.num 2), some (.num 2)] ∧
    abRun.snapshots.map (fun c => lookupCtx c "x") = [some (.num 0), some (.num 1)] ∧
    some (Val.num 2) ≠ some (Val.num 0) :=
  ⟨rfl, rfl, by simp⟩

/-- C6 (amended): the `input` field of a recorded step aliases the run's
single context object, so reading it after the run yields the final context,
altered by the later output merges: in any completed two-step run whose
second step succeeded with an output whose last binding for `k` is `v`, the
first step's recorded input dereferences to the final context and maps `k`
to `v` — the overwritten value, not the step-start one. -/
theorem claim6_amended_theorem (executors : ExecutorTable) (wf : WorkflowDefinition)
    (c0 : Ctx) (prov : ProviderTable) (fuel : Nat) (r : WalkState)
    (a b : WorkflowStep) (out : Ctx) (k : String) (v : Val)
    (hrun : runWorkflow executors wf c0 prov fuel = (r, true))
    (hsteps : r.steps = [a, b])
    (hb : b.status = .success) (hout : b.output = some out)
    (hlast : lastVal out k = some v) :
    ContextRef.deref a.input r.ctx = r.ctx ∧
    lookupCtx (ContextRef.deref a.input r.ctx) k = some v := by
  have hderef : ContextRef.deref a.input r.ctx = r.ctx := by
    cases h : a.input
    rfl
  refine ⟨hderef, ?_⟩
  rw [hderef]
  unfold runWorkflow at hrun
  obtain ⟨new, h1, h2⟩ := walk_chain executors wf prov fuel _ _
  rw [hrun] at h1 h2
  simp only [List.nil_append] at h1
  rw [hsteps] at h1
  rw [h2, ← h1]
  simp only [List.foldl_cons, List.foldl_nil]
  rw [show stepCtxFold (stepCtxFold c0 a) b = assignCtx (stepCtxFold c0 a) out by
    unfold stepCtxFold
    rw [if_neg (by rw [hb]; simp), hout]]
  rw [lookup_assign, hlast]
  rfl

/-- Witness for the amended C6 on the concrete two-step run: step A's recorded
input reads back `x = 2` after step B's merge. -/
theorem claim6_amended_witness :
    ContextRef.deref abRecA.input abRun.ctx = abRun.ctx ∧
    lookupCtx (ContextRef.deref abRecA.input abRun.ctx) "x" = some (.num 2) :=
  claim6_amended_theorem abTable abWf abCtx0 (fun _ => none) 5 abRun
    abRecA abRecB [("x", .num 2)] "x" (.num 2) rfl rfl rfl rfl rfl

/-- C7: context merging is key-wise last-write-wins: merging an output into
the context makes every key of the output map to its last occurrence in the
output, overwriting any existing binding, and leaves all other keys
unchanged; in the concrete run where step A outputs `x = 1` and a later step
B outputs `x = 2` over the initial context `x = 0, z = 9`, the final context
maps `x` to `2` and the untouched `z` still to `9`. -/
theorem claim7_theorem :
    (∀ c out : Ctx, ∀ k : String,
      lookupCtx (assignCtx c out) k = (lastVal out k).or (lookupCtx c k)) ∧
    lookupCtx abRun.ctx "x" = some (.num 2) ∧
    lookupCtx abRun.ctx "z" = some (.num 9) :=
  ⟨fun c out k => lookup_assign c out k, rfl, rfl⟩

/-- C8: the `nextStepId` returned by an executor never influences the walk:
two executor tables whose executors agree on throw-versus-success, on error
messages and on outputs, differing arbitrarily in `nextStepId`, produce
identical runs — same step sequence, statuses, contexts and execution
record. -/
theorem claim8_theorem (t1 t2 : ExecutorTable) (wf : WorkflowDefinition) (c0 : Ctx)
    (prov : ProviderTable) (fuel : Nat) (h : tablesMatch t1 t2) :
    runWorkflow t1 wf c0 prov fuel = runWorkflow t2 wf c0 prov fuel := by
  unfold runWorkflow
  rw [walk_congr t1 t2 wf prov h]

/-- Witness for C8: two concrete tables whose only executor differs solely in
its `nextStepId` hint produce equal runs. -/
theorem claim8_witness :
    tablesMatch w8aTable w8bTable ∧
    runWorkflow w8aTable w8Wf [] (fun _ => none) 4 =
      runWorkflow w8bTable w8Wf [] (fun _ => none) 4 :=
  ⟨w8_tablesMatch, claim8_theorem w8aTable w8bTable w8Wf [] (fun _ => none) 4 w8_tablesMatch⟩

/-- C9: a declared retry policy with `maxAttempts = 0` is treated exactly like
the absent-retry default, because the falsy `0` falls back through
`maxAttempts || 1`: the effective budget equals the no-policy default, the
executor is invoked exactly once rather than zero times, and whenever the
executor does not distinguish the two step definitions the whole step
execution is unchanged. -/
theorem claim9_theorem (executors : ExecutorTable) (stepDef : WorkflowStepDefinition)
    (ctx : Ctx) (prov : ProviderTable) (clock : Nat) (d : Int) (e : Executor)
    (hretry : stepDef.retry = some ⟨0, d⟩)
    (hex : executors stepDef.type = some e) :
    effMaxAttempts stepDef.retry = effMaxAttempts none ∧
    (executeStep executors stepDef ctx prov clock).2.2 = [Event.invoke 0] ∧
    ((∀ a : Nat, e { stepDef with retry := none } ctx prov a = e stepDef ctx prov a) →
      executeStep executors { stepDef with retry := none } ctx prov clock =
        executeStep executors stepDef ctx prov clock) := by
  have heff : effMaxAttempts stepDef.retry = 1 := by rw [hretry]; rfl
  have heffd : (effMaxAttempts stepDef.retry).toNat = 1 := by rw [heff]; rfl
  have heff2 : (effMaxAttempts (none : Option RetryPolicy)).toNat = 1 := rfl
  refine ⟨by rw [heff]; rfl, ?_, ?_⟩
  · simp only [executeStep, hex, heffd]
    cases hinv : e stepDef ctx prov 0 with
    | ok r => simp [retryGo, hinv]
    | error err => simp [retryGo, hinv]
  · intro hsame
    simp only [executeStep, hex, heffd, heff2]
    cases hinv : e stepDef ctx prov 0 with
    | ok r => simp [retryGo, hinv, hsame 0]
    | error err => simp [retryGo, hinv, hsame 0]

/-- Witness for C9 at a concrete step with `maxAttempts = 0`, `delay = 7`:
same effective budget as no policy, exactly one invocation. -/
theorem claim9_witness :
    effMaxAttempts (some ⟨0, 7⟩) = effMaxAttempts none ∧
    (executeStep okTable r0Step [] (fun _ => none) 0).2.2 = [Event.invoke 0] :=
  ⟨(claim9_theorem okTable r0Step [] (fun _ => none) 0 7 okExec rfl rfl).1,
   (claim9_theorem okTable r0Step [] (fun _ => none) 0 7 okExec rfl rfl).2.1⟩

/-- C10: when every step's retry policy (where present) has
`maxAttempts ≥ 1`, every step record in the execution's step sequence — at
any fuel, hence for every prefix of the walk — is terminal: its status is
SUCCESS or FAILED (never PENDING, RUNNING or SKIPPED) and its `completedAt`
timestamp is set. -/
theorem claim10_theorem (executors : ExecutorTable) (wf : WorkflowDefinition)
    (c0 : Ctx) (prov : ProviderTable)
    (hwf : ∀ sd ∈ wf.steps, ∀ rp : RetryPolicy, sd.retry = some rp → 1 ≤ rp.maxAttempts) :
    ∀ fuel : Nat, ∀ i : Nat, ∀ s : WorkflowStep,
      ((runWorkflow executors wf c0 prov fuel).1).steps[i]? = some s →
      (s.status = .success ∨ s.status = .failed) ∧ s.completedAt.isSome = true := by
  intro fuel i s hget
  unfold runWorkflow at hget
  exact walk_terminal executors wf prov hwf fuel _ _
    (by intro x hx; simp at hx) s (List.getElem?_mem hget)

/-- Witness for C10 on the concrete failing one-step run: the single recorded
step is terminal with `completedAt` set. -/
theorem claim10_witness :
    (failRec.status = .success ∨ failRec.status = .failed) ∧
    failRec.completedAt.isSome = true :=
  claim10_theorem failTable failWf [] (fun _ => none)
    (fun sd hsd rp hrp => by
      cases hsd with
      | head => exact absurd hrp (by simp)
      | tail _ h => cases h)
    3 0 failRec rfl

end Oneship
